import Mathlib

/-!
Verification development for the smart-face identity matching engine.

The definitions below are a shallow embedding of the Python sources:
  * `backend/app/services/faiss_service.py`   (class `FAISSService`)
  * `backend/app/services/face_recognition_service.py`
    (class `FaceRecognitionService`)

Floating-point arithmetic is modelled by exact real arithmetic; machine
floats are `ℝ`.  External libraries (faiss, numpy, OpenCV, DeepFace, the
SQL store, the filesystem) are modelled at their interface: the faiss
`IndexFlatIP` is the list of vectors it holds, its exact inner-product
search returns the top-k slots similarity-descending with ties broken by
the lower slot; the database query result, the on-disk artifacts and the
per-image outcomes of decode/detect are explicit parameters.
-/

namespace SmartFace

/-- A face embedding: a finite sequence of reals (a numpy 1-d float array). -/
abbrev Emb := List ℝ

/-- Sum of squares of the entries, so `sumSq v` is the squared Euclidean
norm used by `np.linalg.norm`. -/
def sumSq (v : Emb) : ℝ := (v.map fun x => x * x).sum

/-- Euclidean norm, `np.linalg.norm(v)`. -/
noncomputable def norm2 (v : Emb) : ℝ := Real.sqrt (sumSq v)

/-- Componentwise division by the norm: `v / np.linalg.norm(v)`. -/
noncomputable def l2normalize (v : Emb) : Emb := v.map fun x => x / norm2 v

/-- Inner product of two vectors (`np.dot`, and the score computed by a
faiss `IndexFlatIP`). -/
def dotp (u v : Emb) : ℝ := (List.zipWith (fun a b => a * b) u v).sum

/-- The two persisted artifacts (`faiss_index.bin`, `faiss_mapping.pkl`).
For each file, `none` models an absent file, `some none` a file that is
present but unreadable (read/unpickle raises), and `some (some x)` a
readable file with payload `x`. -/
structure FS where
  indexFile : Option (Option (List Emb))
  mappingFile : Option (Option (List ℤ))

/-- State of `FAISSService`: the faiss index (`None` or its vector rows),
the parallel `person_ids` list, the configured dimension, the state of the
two disk artifacts, the `is_initialized` flag, and a count of the
`save_index` invocations that reached the write path (each such invocation
emits one log line in the source). -/
structure FAISSService where
  index : Option (List Emb)
  person_ids : List ℤ
  dimension : ℕ
  files : FS
  is_initialized : Bool
  saveLog : ℕ

/-- State built by `FAISSService.__init__` together with an empty disk. -/
def initState : FAISSService :=
  { index := none, person_ids := [], dimension := 512,
    files := ⟨none, none⟩, is_initialized := false, saveLog := 0 }

/-- The rows held by the faiss index (`[]` when `self.index is None`). -/
def storedVecs (s : FAISSService) : List Emb := s.index.getD []

/-- Number of vectors stored in the faiss index (`index.ntotal`). -/
def numVectors (s : FAISSService) : ℕ := (storedVecs s).length

/-- `FAISSService.create_index`: fresh `IndexFlatIP` and empty id list. -/
def createIndex (s : FAISSService) : FAISSService :=
  { s with index := some [], person_ids := [] }

/-- `FAISSService.save_index`: when the index exists, write the vector rows
and the id list to the two files (together) and log the save. -/
def saveIndex (s : FAISSService) : FAISSService :=
  match s.index with
  | none => s
  | some vs =>
      { s with files := ⟨some (some vs), some (some s.person_ids)⟩,
               saveLog := s.saveLog + 1 }

/-- `FAISSService.add_person`: create the index if absent, reject a wrong
dimension, otherwise normalize, append the row and the id, and save when
the new total count is a multiple of 10. -/
noncomputable def addPerson (s0 : FAISSService) (person_id : ℤ) (embedding : Emb) :
    FAISSService × Bool :=
  let s := match s0.index with
    | none => createIndex s0
    | some _ => s0
  if embedding.length ≠ s.dimension then (s, false)
  else
    let ids := s.person_ids ++ [person_id]
    let s1 := { s with index := some (storedVecs s ++ [l2normalize embedding]),
                       person_ids := ids }
    let s2 := if ids.length % 10 = 0 then saveIndex s1 else s1
    (s2, true)

/-- Ranking produced by the exact inner-product scan of faiss
`IndexFlatIP.search`: similarity descending, equal similarities ordered by
the lower slot. -/
def simRel (a b : ℕ × ℝ) : Prop := b.2 < a.2 ∨ (a.2 = b.2 ∧ a.1 ≤ b.1)

/-- Strict version of `simRel` (holds between distinct slots). -/
def strictRank (a b : ℕ × ℝ) : Prop := b.2 < a.2 ∨ (a.2 = b.2 ∧ a.1 < b.1)

noncomputable instance : DecidableRel simRel := fun a b => by
  unfold simRel; infer_instance

instance : IsTotal (ℕ × ℝ) simRel where
  total a b := by
    rcases lt_trichotomy a.2 b.2 with h | h | h
    · exact Or.inr (Or.inl h)
    · rcases Nat.le_total a.1 b.1 with h1 | h1
      · exact Or.inl (Or.inr ⟨h, h1⟩)
      · exact Or.inr (Or.inr ⟨h.symm, h1⟩)
    · exact Or.inl (Or.inl h)

instance : IsTrans (ℕ × ℝ) simRel where
  trans a b c hab hbc := by
    rcases hab with h1 | ⟨e1, l1⟩
    · rcases hbc with h2 | ⟨e2, _⟩
      · exact Or.inl (h2.trans h1)
      · exact Or.inl (e2 ▸ h1)
    · rcases hbc with h2 | ⟨e2, l2⟩
      · exact Or.inl (e1 ▸ h2)
      · exact Or.inr ⟨e1.trans e2, l1.trans l2⟩

/-- Result of the faiss exact search: slots paired with their inner-product
similarity to the query, ranked by `simRel`, truncated to `k`. -/
noncomputable def faissTopK (stored : List Emb) (q : Emb) (k : ℕ) : List (ℕ × ℝ) :=
  ((stored.enum.map fun p => (p.1, dotp q p.2)).insertionSort simRel).take k

/-- The result loop of `FAISSService.search`: keep pairs above the floor,
looking each slot up in `person_ids`; a slot out of range raises
(`none`), which the caller turns into an empty result. -/
noncomputable def searchLoop (ids : List ℤ) (fl : ℝ) :
    List (ℕ × ℝ) → Option (List (ℤ × ℝ))
  | [] => some []
  | (idx, conf) :: rest =>
    if fl ≤ conf then
      match ids[idx]? with
      | none => none
      | some pid => (searchLoop ids fl rest).map fun r => (pid, conf) :: r
    else searchLoop ids fl rest

/-- `FAISSService.search`: empty result when the index is `None` or the id
list is empty; otherwise normalize the query, scan with `k' = min k n`,
and keep matches with similarity at least `1 - threshold`. -/
noncomputable def search (s : FAISSService) (embedding : Emb) (k : ℕ)
    (threshold : ℝ) : List (ℤ × ℝ) :=
  match s.index with
  | none => []
  | some vs =>
    if s.person_ids.length = 0 then []
    else
      let q := l2normalize embedding
      let k' := min k s.person_ids.length
      (searchLoop s.person_ids (1 - threshold) (faissTopK vs q k')).getD []

/-- A row of the authoritative store as `rebuild_from_database` consumes
it: the person id and the pickled embedding blob (`none` models a blob on
which `pickle.loads` raises).  The whole query is `Except.error ()` when
the store is unreachable. -/
abbrev DbResult := Except Unit (List (ℤ × Option Emb))

/-- `FAISSService.rebuild_from_database`: clear the live index in place,
query the store (failure propagates, leaving the cleared index), add each
deserializable row (per-row failures are skipped), then save. -/
noncomputable def rebuildFromDatabase (s : FAISSService) (db : DbResult) :
    FAISSService × Bool :=
  let s1 := createIndex s
  match db with
  | .error _ => (s1, false)
  | .ok persons =>
    let s2 := persons.foldl (fun acc p =>
      match p.2 with
      | none => acc
      | some e => (addPerson acc p.1 e).1) s1
    (saveIndex s2, true)

/-- `FAISSService.update_person`: rebuild when the id is present, else
report `False` without touching anything. -/
noncomputable def updatePerson (s : FAISSService) (person_id : ℤ)
    (new_embedding : Emb) (db : DbResult) : FAISSService × Bool :=
  if person_id ∈ s.person_ids then rebuildFromDatabase s db
  else (s, false)

/-- `FAISSService.remove_person`: same shape as `update_person`. -/
noncomputable def removePerson (s : FAISSService) (person_id : ℤ)
    (db : DbResult) : FAISSService × Bool :=
  if person_id ∈ s.person_ids then rebuildFromDatabase s db
  else (s, false)

/-- `FAISSService.load_index`: read the index file (raise if absent or
unreadable), assign it, then read the mapping file (raise likewise); a
failure between the two assignments leaves the first one in place. -/
def loadIndex (s : FAISSService) : FAISSService × Bool :=
  match s.files.indexFile with
  | none => (s, false)
  | some none => (s, false)
  | some (some vs) =>
    let s1 := { s with index := some vs }
    match s.files.mappingFile with
    | none => (s1, false)
    | some none => (s1, false)
    | some (some ids) => ({ s1 with person_ids := ids }, true)

/-- `FAISSService.initialize`: load when both files exist, falling back to
a fresh index when the load raises; create a fresh index when a file is
missing. -/
def initializeIndex (s : FAISSService) : FAISSService :=
  if s.files.indexFile.isSome && s.files.mappingFile.isSome then
    match loadIndex s with
    | (s', true) => { s' with is_initialized := true }
    | (s', false) => createIndex s'
  else
    { createIndex s with is_initialized := true }

/-- `FAISSService.clear_index`. -/
def clearIndex (s : FAISSService) : FAISSService := saveIndex (createIndex s)

/-- Folding `add_person` over a batch, keeping the state (used to state the
autosave policy over a run of add calls). -/
noncomputable def addMany (s : FAISSService) (batch : List (ℤ × Emb)) :
    FAISSService :=
  batch.foldl (fun acc p => (addPerson acc p.1 p.2).1) s

/-- Number of autosaves fired during `m` successful adds on top of an
initial count of `n0`: those steps whose new total count is a multiple of
ten. -/
def countSaves (n0 m : ℕ) : ℕ :=
  (List.range m).countP fun j => (n0 + j + 1) % 10 == 0

/-! ### FaceRecognitionService: quality assessment -/

/-- Arithmetic mean of a list of reals (`np.mean`). -/
noncomputable def listMean (l : List ℝ) : ℝ := l.sum / l.length

/-- Population variance of a list of reals (`np.var`, i.e. `.var()` with
`ddof = 0`). -/
noncomputable def listVar (l : List ℝ) : ℝ :=
  listMean (l.map fun x => (x - listMean l) ^ 2)

/-- Standard deviation (`np.std`). -/
noncomputable def listStd (l : List ℝ) : ℝ := Real.sqrt (listVar l)

/-- Python `round(x, 3)`: nearest multiple of `1/1000`, ties to even. -/
noncomputable def round3 (x : ℝ) : ℝ :=
  let y := x * 1000
  let n : ℤ :=
    if y - ⌊y⌋ < 1 / 2 then ⌊y⌋
    else if 1 / 2 < y - ⌊y⌋ then ⌊y⌋ + 1
    else if 2 ∣ ⌊y⌋ then ⌊y⌋ else ⌊y⌋ + 1
  (n : ℝ) / 1000

/-- The four metrics returned by `assess_image_quality`. -/
structure QualityMetrics where
  quality_score : ℝ
  sharpness : ℝ
  brightness : ℝ
  contrast : ℝ

/-- `FaceRecognitionService.assess_image_quality`.  The grayscale
conversion and the Laplacian filter are OpenCV externals; the model takes
the Laplacian response `lap` and the grayscale pixel sequence `gray` as
inputs and transcribes the arithmetic the method performs on them:
`sharpness = min(lap.var()/100, 1)`, `brightness = mean(gray)/255`,
`contrast = std(gray)/128`, and
`quality = 0.4*sharpness + 0.3*min(2*|brightness-0.5|, 1)
         + 0.3*min(contrast, 1)`, each rounded to three decimals. -/
noncomputable def assessImageQuality (lap gray : List ℝ) : QualityMetrics :=
  let laplacian_var := listVar lap
  let s := min (laplacian_var / 100) 1
  let b := listMean gray / 255
  let c := listStd gray / 128
  let quality := s * 0.4 + min (|b - 0.5| * 2) 1 * 0.3 + min c 1 * 0.3
  { quality_score := round3 quality, sharpness := round3 s,
    brightness := round3 b, contrast := round3 c }

/-- The overall score exactly as the specification words it:
`0.4*sharpness + 0.3*clamp(1 - 2*|brightness - 0.5|) + 0.3*contrast`,
the middle term clamped to `[0, 1]`. -/
def specQualityScore (s b c : ℝ) : ℝ :=
  0.4 * s + 0.3 * max (min (1 - 2 * |b - 0.5|) 1) 0 + 0.3 * c

/-! ### FaceRecognitionService: enrollment aggregation -/

/-- Status tag of a per-image quality report. -/
inductive RStatus where
  | accepted
  | rejected
  | error
deriving DecidableEq

/-- A per-image report entry appended by `process_enrollment_images`
(`image_index` is one-based in the source). -/
structure Report where
  image_index : ℕ
  status : RStatus
deriving DecidableEq

/-- Outcome of the external calls made for one enrollment image:
`decodeError` models `base64_to_image` raising; otherwise `quality` is the
assessed `quality_score` (the assessment itself never raises) and `emb`
the result of `extract_embedding` (`none` = no usable face). -/
inductive ImgOutcome where
  | decodeError
  | decoded (quality : ℝ) (emb : Option Emb)

/-- Status the loop body assigns to one image. -/
noncomputable def expectedStatus : ImgOutcome → RStatus
  | .decodeError => .error
  | .decoded q e =>
    if q < 0.3 then .rejected
    else match e with
      | some _ => .accepted
      | none => .rejected

/-- The embeddings the loop accumulates: images that pass the quality gate
and yield an embedding. -/
noncomputable def acceptedEmbs (imgs : List ImgOutcome) : List Emb :=
  imgs.filterMap fun img =>
    match img with
    | .decoded q (some e) => if q < 0.3 then none else some e
    | _ => none

/-- The per-image loop of `process_enrollment_images`, carrying the
zero-based position: returns the accumulated embeddings and reports, in
order.  A decode failure or a rejection records a report and moves on. -/
noncomputable def enrollLoop (idx : ℕ) : List ImgOutcome → List Emb × List Report
  | [] => ([], [])
  | img :: rest =>
    let r := enrollLoop (idx + 1) rest
    match img with
    | .decodeError => (r.1, ⟨idx + 1, .error⟩ :: r.2)
    | .decoded q e =>
      if q < 0.3 then (r.1, ⟨idx + 1, .rejected⟩ :: r.2)
      else match e with
        | some emb => (emb :: r.1, ⟨idx + 1, .accepted⟩ :: r.2)
        | none => (r.1, ⟨idx + 1, .rejected⟩ :: r.2)

/-- Componentwise sum of equal-length vectors (`np.sum` along axis 0). -/
def sumVecs : List Emb → Emb
  | [] => []
  | [v] => v
  | v :: rest => List.zipWith (fun a b => a + b) v (sumVecs rest)

/-- Componentwise mean of a batch (`np.mean(embeddings, axis=0)`). -/
noncomputable def meanVec (l : List Emb) : Emb :=
  (sumVecs l).map fun x => x / l.length

/-- `FaceRecognitionService.process_enrollment_images`: run the loop; with
no usable embedding return `none` plus the reports, otherwise the
normalized componentwise mean of the accepted embeddings. -/
noncomputable def processEnrollmentImages (imgs : List ImgOutcome) :
    Option Emb × List Report :=
  let r := enrollLoop 0 imgs
  match r.1 with
  | [] => (none, r.2)
  | _ :: _ => (some (l2normalize (meanVec r.1)), r.2)

/-! ### Basic norm lemmas -/

theorem sumSq_nonneg (v : Emb) : 0 ≤ sumSq v := by
  unfold sumSq
  apply List.sum_nonneg
  intro x hx
  obtain ⟨y, _, rfl⟩ := List.mem_map.mp hx
  exact mul_self_nonneg y

theorem sumSq_map_div (v : Emb) (c : ℝ) :
    sumSq (v.map fun x => x / c) = sumSq v / c ^ 2 := by
  induction v with
  | nil => simp [sumSq]
  | cons x xs ih =>
    simp only [sumSq, List.map_cons, List.sum_cons] at *
    rw [ih]
    rw [div_mul_div_comm, add_div]
    ring_nf

theorem norm2_l2normalize (v : Emb) (h : sumSq v ≠ 0) :
    norm2 (l2normalize v) = 1 := by
  unfold l2normalize norm2
  rw [sumSq_map_div]
  rw [Real.sq_sqrt (sumSq_nonneg v)]
  rw [div_self h, Real.sqrt_one]

theorem sumSq_replicate_zero (n : ℕ) : sumSq (List.replicate n (0 : ℝ)) = 0 := by
  simp [sumSq, List.map_replicate, List.sum_replicate]

theorem l2normalize_replicate_zero (n : ℕ) :
    l2normalize (List.replicate n (0 : ℝ)) = List.replicate n (0 : ℝ) := by
  simp [l2normalize, List.map_replicate]

theorem l2normalize_of_unit (v : Emb) (h : sumSq v = 1) : l2normalize v = v := by
  unfold l2normalize norm2
  rw [h, Real.sqrt_one]
  simp

/-! ### Claim C10: update/remove with an absent id -/

/-- C10: for every `person_id` not present in `person_ids`, `update_person`
and `remove_person` return `False` and leave the whole service state —
index rows, id sequence and persisted artifacts — unchanged, and trigger no
rebuild. -/
theorem updateRemove_absent_id_noop (s : FAISSService) (pid : ℤ) (e : Emb)
    (db : DbResult) (h : pid ∉ s.person_ids) :
    updatePerson s pid e db = (s, false) ∧ removePerson s pid db = (s, false) := by
  constructor <;> simp [updatePerson, removePerson, h]

/-- Concrete state used to witness C10. -/
def s10 : FAISSService :=
  { index := some [[1, 0]], person_ids := [7], dimension := 2,
    files := ⟨none, none⟩, is_initialized := true, saveLog := 0 }

theorem updateRemove_absent_id_noop_witness :
    (3 : ℤ) ∉ s10.person_ids ∧
      (updatePerson s10 3 [1, 0] (Except.ok []) = (s10, false) ∧
        removePerson s10 3 (Except.ok []) = (s10, false)) :=
  ⟨by decide, updateRemove_absent_id_noop s10 3 [1, 0] (Except.ok []) (by decide)⟩

/-! ### Shared facts about the lifecycle operations -/

theorem initializeIndex_bad (s : FAISSService)
    (hbad : s.files.indexFile = none ∨ s.files.mappingFile = none ∨
      s.files.indexFile = some none ∨ s.files.mappingFile = some none) :
    (initializeIndex s).index = some [] ∧ (initializeIndex s).person_ids = [] := by
  rcases hfs : s.files with ⟨fi, fm⟩
  rcases fi with _ | _ | vs0 <;> rcases fm with _ | _ | ids0 <;>
    simp_all [initializeIndex, loadIndex, createIndex, hfs]

theorem initializeIndex_good (s : FAISSService) (vs : List Emb) (ids : List ℤ)
    (hgood : s.files = ⟨some (some vs), some (some ids)⟩) :
    (initializeIndex s).index = some vs ∧ (initializeIndex s).person_ids = ids := by
  simp [initializeIndex, loadIndex, hgood]

/-! ### Claim C3: load behavior -/

/-- C3 (amended): when either persisted artifact is missing or unreadable,
the whole load fails and `initialize` reverts to a freshly created empty
index; but no length-consistency check is performed: when both artifacts
are readable they are installed verbatim, even if the vector count and the
label count disagree. -/
theorem load_fails_only_on_unreadable (s : FAISSService) :
    ((s.files.indexFile = none ∨ s.files.mappingFile = none ∨
        s.files.indexFile = some none ∨ s.files.mappingFile = some none) →
      (initializeIndex s).index = some [] ∧ (initializeIndex s).person_ids = []) ∧
    ∀ vs ids, s.files = ⟨some (some vs), some (some ids)⟩ →
      (initializeIndex s).index = some vs ∧ (initializeIndex s).person_ids = ids :=
  ⟨fun hbad => initializeIndex_bad s hbad,
   fun vs ids hgood => initializeIndex_good s vs ids hgood⟩

/-- Concrete state used to witness C3: mapping file missing. -/
def s3missing : FAISSService := { initState with files := ⟨none, some (some [5])⟩ }

theorem load_fails_only_on_unreadable_witness :
    (initializeIndex s3missing).index = some [] ∧
      (initializeIndex s3missing).person_ids = [] :=
  (load_fails_only_on_unreadable s3missing).1 (Or.inl rfl)

/-- Concrete state refuting C3 as stated: a readable vector file with one
row next to a readable mapping with zero ids. -/
def s3mis : FAISSService :=
  { index := none, person_ids := [], dimension := 512,
    files := ⟨some (some [[1, 0]]), some (some [])⟩,
    is_initialized := false, saveLog := 0 }

/-- C3 counterexample: with artifacts whose lengths disagree the load
succeeds, producing an index populated from both artifacts with mismatched
parallel lengths instead of failing and reverting to an empty index. -/
theorem load_no_length_check_cex :
    numVectors (initializeIndex s3mis) = 1 ∧
      (initializeIndex s3mis).person_ids.length = 0 ∧
      (initializeIndex s3mis).is_initialized = true :=
  ⟨rfl, rfl, rfl⟩

/-! ### Claim C1: rebuild failure -/

/-- C1 (amended): `rebuild_from_database` clears the live index in place
before reading the authoritative store, so when the store is unreachable
the failed call surfaces the error and leaves the freshly cleared empty
index — every subsequent search over it returns no matches — rather than
the pre-rebuild index. -/
theorem rebuild_failure_serves_cleared_index (s : FAISSService) (q : Emb)
    (k : ℕ) (t : ℝ) :
    (rebuildFromDatabase s (Except.error ())).2 = false ∧
    (rebuildFromDatabase s (Except.error ())).1 = createIndex s ∧
    numVectors (rebuildFromDatabase s (Except.error ())).1 = 0 ∧
    search (rebuildFromDatabase s (Except.error ())).1 q k t = [] := by
  refine ⟨rfl, rfl, rfl, ?_⟩
  simp [search, rebuildFromDatabase, createIndex]

/-! ### Claim C7: the parallel-lengths invariant -/

/-- The invariant claimed in the data model: the number of vectors stored
in the index equals the length of the parallel id sequence. -/
def lenInv (s : FAISSService) : Prop := numVectors s = s.person_ids.length

theorem lenInv_createIndex (s : FAISSService) : lenInv (createIndex s) := by
  simp [lenInv, createIndex, numVectors, storedVecs]

theorem saveIndex_fields (s : FAISSService) :
    (saveIndex s).index = s.index ∧ (saveIndex s).person_ids = s.person_ids ∧
      (saveIndex s).dimension = s.dimension := by
  cases h : s.index <;> simp [saveIndex, h]

theorem lenInv_saveIndex (s : FAISSService) (h : lenInv s) :
    lenInv (saveIndex s) := by
  unfold lenInv numVectors storedVecs at *
  rw [(saveIndex_fields s).1, (saveIndex_fields s).2.1]
  exact h

theorem addPerson_lenInv (s : FAISSService) (pid : ℤ) (e : Emb) (h : lenInv s) :
    lenInv (addPerson s pid e).1 := by
  unfold lenInv numVectors storedVecs at *
  cases hvs : s.index with
  | none =>
    by_cases hd : e.length = s.dimension <;>
      by_cases hm : (1 : ℕ) % 10 = 0 <;>
        simp [addPerson, hvs, hd, hm, createIndex, saveIndex, storedVecs]
  | some vs =>
    simp only [hvs, Option.getD_some] at h
    by_cases hd : e.length = s.dimension <;>
      by_cases hm : (s.person_ids.length + 1) % 10 = 0 <;>
        simp [addPerson, hvs, hd, hm, createIndex, saveIndex, storedVecs, h]

theorem foldlAdd_lenInv (l : List (ℤ × Option Emb)) :
    ∀ s : FAISSService, lenInv s →
      lenInv (l.foldl (fun acc p =>
        match p.2 with
        | none => acc
        | some e => (addPerson acc p.1 e).1) s) := by
  induction l with
  | nil => intro s h; exact h
  | cons p rest ih =>
    intro s h
    cases hp : p.2 with
    | none => simpa [hp] using ih s h
    | some e => simpa [hp] using ih _ (addPerson_lenInv s p.1 e h)

theorem rebuildFromDatabase_lenInv (s : FAISSService) (db : DbResult) :
    lenInv (rebuildFromDatabase s db).1 := by
  cases db with
  | error e => exact lenInv_createIndex s
  | ok persons =>
    exact lenInv_saveIndex _ (foldlAdd_lenInv persons _ (lenInv_createIndex s))

/-- C7 (amended): every in-memory operation — `add`, `rebuild`,
`update`, `remove`, `persist`, `clear` — preserves the equality between the
stored vector count and the id-sequence length (`search` touches no state),
and so does `load` when the two artifacts are missing/unreadable or agree
in length; but `load` performs no consistency check, so loading artifacts
whose lengths disagree yields a state violating the equality. -/
theorem lenInv_preserved_by_ops (s : FAISSService) (pid : ℤ) (e : Emb)
    (db : DbResult) (h : lenInv s) :
    lenInv (addPerson s pid e).1 ∧
    lenInv (rebuildFromDatabase s db).1 ∧
    lenInv (updatePerson s pid e db).1 ∧
    lenInv (removePerson s pid db).1 ∧
    lenInv (saveIndex s) ∧
    lenInv (clearIndex s) ∧
    ((s.files.indexFile = none ∨ s.files.mappingFile = none ∨
        s.files.indexFile = some none ∨ s.files.mappingFile = some none) →
      lenInv (initializeIndex s)) ∧
    (∀ vs ids, s.files = ⟨some (some vs), some (some ids)⟩ →
      vs.length = ids.length → lenInv (initializeIndex s)) := by
  refine ⟨addPerson_lenInv s pid e h, rebuildFromDatabase_lenInv s db, ?_, ?_,
    lenInv_saveIndex s h, lenInv_saveIndex _ (lenInv_createIndex s), ?_, ?_⟩
  · unfold updatePerson
    by_cases hmem : pid ∈ s.person_ids <;>
      simp [hmem, rebuildFromDatabase_lenInv, h]
  · unfold removePerson
    by_cases hmem : pid ∈ s.person_ids <;>
      simp [hmem, rebuildFromDatabase_lenInv, h]
  · intro hbad
    obtain ⟨h1, h2⟩ := initializeIndex_bad s hbad
    simp [lenInv, numVectors, storedVecs, h1, h2]
  · intro vs ids hgood hlen
    obtain ⟨h1, h2⟩ := initializeIndex_good s vs ids hgood
    simp [lenInv, numVectors, storedVecs, h1, h2, hlen]

theorem lenInv_preserved_by_ops_witness :
    lenInv initState ∧
      (lenInv (addPerson initState 1 [] ).1 ∧
       lenInv (rebuildFromDatabase initState (Except.ok [])).1 ∧
       lenInv (updatePerson initState 1 [] (Except.ok [])).1 ∧
       lenInv (removePerson initState 1 (Except.ok [])).1 ∧
       lenInv (saveIndex initState) ∧
       lenInv (clearIndex initState) ∧
       ((initState.files.indexFile = none ∨ initState.files.mappingFile = none ∨
           initState.files.indexFile = some none ∨
           initState.files.mappingFile = some none) →
         lenInv (initializeIndex initState)) ∧
       (∀ vs ids, initState.files = ⟨some (some vs), some (some ids)⟩ →
         vs.length = ids.length → lenInv (initializeIndex initState))) :=
  ⟨rfl, lenInv_preserved_by_ops initState 1 [] (Except.ok []) rfl⟩

/-- Concrete state refuting C7: two readable artifacts of different
lengths, as an interrupted save can leave behind. -/
def s7mis : FAISSService :=
  { index := none, person_ids := [], dimension := 512,
    files := ⟨some (some [[2, 0], [0, 2]]), some (some [4])⟩,
    is_initialized := false, saveLog := 0 }

/-- C7 counterexample: after `load` on artifacts whose lengths disagree,
the reached state stores two vectors against one identity id, violating
the claimed always-equality. -/
theorem lenInv_load_cex :
    numVectors (initializeIndex s7mis) = 2 ∧
      (initializeIndex s7mis).person_ids.length = 1 ∧
      ¬ lenInv (initializeIndex s7mis) := by
  refine ⟨rfl, rfl, ?_⟩
  intro h
  rw [lenInv] at h
  simp only [show numVectors (initializeIndex s7mis) = 2 from rfl,
    show (initializeIndex s7mis).person_ids.length = 1 from rfl] at h
  exact absurd h (by norm_num)

/-! ### Search machinery lemmas -/

theorem mem_faissTopK (stored : List Emb) (q : Emb) (k : ℕ) (p : ℕ × ℝ)
    (hp : p ∈ faissTopK stored q k) : p.1 < stored.length := by
  unfold faissTopK at hp
  have h1 := List.mem_of_mem_take hp
  rw [List.mem_insertionSort] at h1
  obtain ⟨x, hx, rfl⟩ := List.mem_map.mp h1
  have h2 := List.mem_enum_iff_getElem?.mp hx
  obtain ⟨hlt, _⟩ := List.getElem?_eq_some.mp h2
  exact hlt

theorem faissTopK_pairwise_simRel (stored : List Emb) (q : Emb) (k : ℕ) :
    (faissTopK stored q k).Pairwise simRel := by
  unfold faissTopK
  exact List.Pairwise.sublist (List.take_sublist _ _)
    (List.sorted_insertionSort simRel _)

theorem faissTopK_slots_nodup (stored : List Emb) (q : Emb) (k : ℕ) :
    ((faissTopK stored q k).map Prod.fst).Nodup := by
  unfold faissTopK
  rw [List.map_take]
  apply List.Nodup.sublist (List.take_sublist _ _)
  have hperm : List.Perm
      ((List.insertionSort simRel
        (stored.enum.map fun p => (p.1, dotp q p.2))).map Prod.fst)
      ((stored.enum.map fun p => (p.1, dotp q p.2)).map Prod.fst) :=
    (List.perm_insertionSort simRel _).map Prod.fst
  apply hperm.symm.nodup
  rw [List.map_map]
  have : (Prod.fst ∘ fun p : ℕ × Emb => (p.1, dotp q p.2)) = Prod.fst := rfl
  rw [this, List.enum_map_fst]
  exact List.nodup_range _

theorem faissTopK_pairwise_strict (stored : List Emb) (q : Emb) (k : ℕ) :
    (faissTopK stored q k).Pairwise strictRank := by
  have h1 := faissTopK_pairwise_simRel stored q k
  have h2 : (faissTopK stored q k).Pairwise fun a b => a.1 ≠ b.1 :=
    List.pairwise_map.mp (faissTopK_slots_nodup stored q k)
  refine (h1.and h2).imp ?_
  rintro a b ⟨hs | ⟨heq, hle⟩, hne⟩
  · exact Or.inl hs
  · exact Or.inr ⟨heq, lt_of_le_of_ne hle hne⟩

theorem searchLoop_some_spec (ids : List ℤ) (fl : ℝ) :
    ∀ (l : List (ℕ × ℝ)) (r : List (ℤ × ℝ)), searchLoop ids fl l = some r →
      r.length ≤ l.length ∧
      (∀ p ∈ r, fl ≤ p.2 ∧ ∃ x ∈ l, p.2 = x.2) ∧
      (l.Pairwise (fun a b => b.2 ≤ a.2) → r.Pairwise fun a b => b.2 ≤ a.2)
  | [], r, h => by
    rw [searchLoop] at h
    cases h
    exact ⟨by simp, by simp, by simp⟩
  | (idx, conf) :: rest, r, h => by
    rw [searchLoop] at h
    by_cases hc : fl ≤ conf
    · rw [if_pos hc] at h
      cases hid : ids[idx]? with
      | none => rw [hid] at h; exact absurd h (by simp)
      | some pid =>
        rw [hid] at h
        cases hrec : searchLoop ids fl rest with
        | none => rw [hrec] at h; exact absurd h (by simp)
        | some r' =>
          rw [hrec] at h
          simp only [Option.map_some'] at h
          cases h
          obtain ⟨ihlen, ihmem, ihsorted⟩ := searchLoop_some_spec ids fl rest r' hrec
          refine ⟨by simpa using Nat.succ_le_succ ihlen, ?_, ?_⟩
          · intro p hp
            rcases List.mem_cons.mp hp with rfl | hp'
            · exact ⟨hc, ⟨(idx, conf), List.mem_cons_self _ _, rfl⟩⟩
            · obtain ⟨hfl, x, hx, hpx⟩ := ihmem p hp'
              exact ⟨hfl, x, List.mem_cons_of_mem _ hx, hpx⟩
          · intro hsor
            rw [List.pairwise_cons] at hsor ⊢
            obtain ⟨hhead, htail⟩ := hsor
            refine ⟨?_, ihsorted htail⟩
            intro p hp
            obtain ⟨_, x, hx, hpx⟩ := ihmem p hp
            rw [hpx]
            exact hhead x hx
    · rw [if_neg hc] at h
      obtain ⟨ihlen, ihmem, ihsorted⟩ := searchLoop_some_spec ids fl rest r h
      refine ⟨Nat.le_succ_of_le ihlen, ?_, ?_⟩
      · intro p hp
        obtain ⟨hfl, x, hx, hpx⟩ := ihmem p hp
        exact ⟨hfl, x, List.mem_cons_of_mem _ hx, hpx⟩
      · intro hsor
        exact ihsorted (List.pairwise_cons.mp hsor).2

theorem searchLoop_eq_filter (ids : List ℤ) (fl : ℝ) :
    ∀ l : List (ℕ × ℝ), (∀ p ∈ l, p.1 < ids.length) →
      searchLoop ids fl l =
        some ((l.filter fun p => decide (fl ≤ p.2)).map
          fun p => (ids.getD p.1 0, p.2))
  | [], _ => by rw [searchLoop]; simp
  | (idx, conf) :: rest, hv => by
    have hidx : idx < ids.length := hv (idx, conf) (List.mem_cons_self _ _)
    have hrest := searchLoop_eq_filter ids fl rest fun p hp =>
      hv p (List.mem_cons_of_mem _ hp)
    rw [searchLoop]
    by_cases hc : fl ≤ conf
    · rw [if_pos hc, List.getElem?_eq_getElem hidx]
      simp only [hrest, Option.map_some', List.filter_cons]
      simp [hc, List.getD_eq_getElem ids 0 hidx]
      rw [List.getElem?_eq_getElem hidx]
      rfl
    · rw [if_neg hc, hrest, List.filter_cons]
      simp [hc]

/-! ### Claim C4: search result shape -/

/-- C4: for every query, every `k ≥ 1` and every threshold, `search`
returns at most `k` pairs, every returned similarity is at least the floor
`1 - threshold`, the results are similarity-descending, and an index
holding zero vectors yields the empty result rather than an error. -/
theorem search_results_spec (s : FAISSService) (q : Emb) (k : ℕ) (t : ℝ)
    (hk : 1 ≤ k) :
    (search s q k t).length ≤ k ∧
    (∀ p ∈ search s q k t, 1 - t ≤ p.2) ∧
    (search s q k t).Pairwise (fun a b => b.2 ≤ a.2) ∧
    (numVectors s = 0 → search s q k t = []) := by
  cases hvs : s.index with
  | none => simp [search, hvs]
  | some vs =>
    by_cases hids : s.person_ids.length = 0
    · simp [search, hvs, hids]
    · have hsearch : search s q k t =
          (searchLoop s.person_ids (1 - t)
            (faissTopK vs (l2normalize q) (min k s.person_ids.length))).getD [] := by
        simp [search, hvs, hids]
      have hzero : numVectors s = 0 → search s q k t = [] := by
        intro h0
        have hvs0 : vs = [] := by
          have : vs.length = 0 := by simpa [numVectors, storedVecs, hvs] using h0
          exact List.length_eq_zero.mp this
        rw [hsearch, hvs0]
        rw [show faissTopK [] (l2normalize q) (min k s.person_ids.length) = []
          from by simp [faissTopK]]
        rw [searchLoop]
        rfl
      cases hloop : searchLoop s.person_ids (1 - t)
          (faissTopK vs (l2normalize q) (min k s.person_ids.length)) with
      | none =>
        rw [hsearch, hloop]
        exact ⟨by simp, by simp, by simp, fun _ => by simp⟩
      | some r =>
        obtain ⟨hlen, hmem, hsort⟩ := searchLoop_some_spec _ _ _ r hloop
        have hlenTopK :
            (faissTopK vs (l2normalize q) (min k s.person_ids.length)).length ≤ k := by
          unfold faissTopK
          rw [List.length_take]
          exact le_trans inf_le_left (min_le_left _ _)
        have hsorted :
            (faissTopK vs (l2normalize q)
              (min k s.person_ids.length)).Pairwise fun a b => b.2 ≤ a.2 := by
          refine (faissTopK_pairwise_simRel _ _ _).imp ?_
          rintro a b (h | ⟨heq, _⟩)
          · exact le_of_lt h
          · exact le_of_eq heq.symm
        rw [hsearch, hloop]
        exact ⟨le_trans hlen hlenTopK, fun p hp => ((hmem p hp).1),
          hsort hsorted, fun h0 => by
            have hz := hzero h0
            rw [hsearch, hloop] at hz
            exact hz⟩

theorem search_results_spec_witness :
    (1 ≤ 1) ∧
      ((search initState [1, 0] 1 (6 / 10)).length ≤ 1 ∧
        (∀ p ∈ search initState [1, 0] 1 (6 / 10), 1 - 6 / 10 ≤ p.2) ∧
        (search initState [1, 0] 1 (6 / 10)).Pairwise (fun a b => b.2 ≤ a.2) ∧
        (numVectors initState = 0 → search initState [1, 0] 1 (6 / 10) = [])) :=
  ⟨le_refl 1, search_results_spec initState [1, 0] 1 (6 / 10) (le_refl 1)⟩

/-! ### Claim C9: deterministic tie-break by lowest slot -/

/-- C9: the exact scan ranks candidates similarity-descending with exact
ties resolved in favor of the lower (earlier-enrolled) slot, and the
search result is the order-preserving image of that ranking filtered by
the similarity floor — so equal-similarity entries appear lower slot
first, deterministically. -/
theorem search_tie_break_lowest_slot (s : FAISSService) (q : Emb) (k : ℕ)
    (t : ℝ) (h : numVectors s ≤ s.person_ids.length) :
    (faissTopK (storedVecs s) (l2normalize q)
        (min k s.person_ids.length)).Pairwise strictRank ∧
    search s q k t =
      ((faissTopK (storedVecs s) (l2normalize q)
          (min k s.person_ids.length)).filter fun p => decide ((1 - t) ≤ p.2)).map
        fun p => (s.person_ids.getD p.1 0, p.2) := by
  refine ⟨faissTopK_pairwise_strict _ _ _, ?_⟩
  cases hvs : s.index with
  | none =>
    rw [show storedVecs s = [] from by simp [storedVecs, hvs]]
    rw [show faissTopK [] (l2normalize q) (min k s.person_ids.length) = []
      from by simp [faissTopK]]
    simp [search, hvs]
  | some vs =>
    have hvseq : storedVecs s = vs := by simp [storedVecs, hvs]
    by_cases hids : s.person_ids.length = 0
    · have hvs0 : vs = [] := by
        have hlen : vs.length ≤ s.person_ids.length := by
          simpa [numVectors, storedVecs, hvs] using h
        exact List.length_eq_zero.mp (Nat.le_zero.mp (hids ▸ hlen))
      rw [hvseq, hvs0]
      rw [show faissTopK [] (l2normalize q) (min k s.person_ids.length) = []
        from by simp [faissTopK]]
      simp [search, hvs, hids]
    · have hvalid : ∀ p ∈ faissTopK vs (l2normalize q)
          (min k s.person_ids.length), p.1 < s.person_ids.length := by
        intro p hp
        exact lt_of_lt_of_le (mem_faissTopK _ _ _ p hp) (hvseq ▸ h)
      rw [hvseq]
      simp only [search, hvs, hids, if_neg hids]
      rw [searchLoop_eq_filter s.person_ids (1 - t) _ hvalid]
      rfl

/-- Concrete state used to witness C9: two identical embeddings enrolled
under ids 5 and 9. -/
def s9w : FAISSService :=
  { index := some [[1, 0], [1, 0]], person_ids := [5, 9], dimension := 2,
    files := ⟨none, none⟩, is_initialized := true, saveLog := 0 }

theorem search_tie_break_lowest_slot_witness :
    numVectors s9w ≤ s9w.person_ids.length ∧
      ((faissTopK (storedVecs s9w) (l2normalize [1, 0])
          (min 5 s9w.person_ids.length)).Pairwise strictRank ∧
        search s9w [1, 0] 5 (6 / 10) =
          ((faissTopK (storedVecs s9w) (l2normalize [1, 0])
              (min 5 s9w.person_ids.length)).filter
            fun p => decide ((1 - 6 / 10) ≤ p.2)).map
            fun p => (s9w.person_ids.getD p.1 0, p.2)) :=
  ⟨by norm_num [numVectors, storedVecs, s9w],
    search_tie_break_lowest_slot s9w [1, 0] 5 (6 / 10)
      (by norm_num [numVectors, storedVecs, s9w])⟩

/-! ### Concrete evaluation of search, and the C1 counterexample -/

theorem search_eq_loop (s : FAISSService) (vs : List Emb) (q : Emb) (k : ℕ)
    (t : ℝ) (hvs : s.index = some vs) (hids : ¬ s.person_ids.length = 0) :
    search s q k t =
      (searchLoop s.person_ids (1 - t)
        (faissTopK vs (l2normalize q) (min k s.person_ids.length))).getD [] := by
  simp [search, hvs, hids]

/-- Concrete pre-rebuild state refuting C1: one enrolled identity. -/
def s1pre : FAISSService :=
  { index := some [[1, 0]], person_ids := [7], dimension := 2,
    files := ⟨none, none⟩, is_initialized := true, saveLog := 0 }

theorem c1_topk : faissTopK [[1, 0]] [1, 0] 1 = [(0, 1)] := by
  have henum : ([[1, 0]] : List Emb).enum = [(0, [1, 0])] := rfl
  have hdot : dotp [1, 0] [1, 0] = 1 := by norm_num [dotp]
  unfold faissTopK
  rw [henum]
  simp [hdot]

theorem c1_search_pre : search s1pre [1, 0] 1 (6 / 10) = [(7, 1)] := by
  have hq : l2normalize [1, 0] = [1, 0] :=
    l2normalize_of_unit _ (by norm_num [sumSq])
  have hloop : searchLoop [7] (1 - 6 / 10) [(0, 1)] = some [(7, 1)] := by
    rw [searchLoop, if_pos (by norm_num : (1 : ℝ) - 6 / 10 ≤ 1)]
    rw [show ((7 : ℤ) :: [])[(0 : ℕ)]? = some 7 from rfl]
    rw [searchLoop]
    rfl
  rw [search_eq_loop s1pre [[1, 0]] [1, 0] 1 (6 / 10) rfl (by norm_num [s1pre])]
  rw [hq]
  rw [show min 1 s1pre.person_ids.length = 1 from rfl]
  rw [c1_topk]
  rw [show s1pre.person_ids = [7] from rfl]
  rw [hloop]
  rfl

/-- C1 counterexample: from a state serving identity 7, a rebuild that
fails because the store is unreachable leaves an emptied index: the query
that matched before the failed rebuild matches nothing afterwards, so the
index state observable by search after the failure is not the pre-rebuild
state. -/
theorem rebuild_failure_not_atomic_cex :
    search s1pre [1, 0] 1 (6 / 10) = [(7, 1)] ∧
      (rebuildFromDatabase s1pre (Except.error ())).1.person_ids = [] ∧
      search (rebuildFromDatabase s1pre (Except.error ())).1 [1, 0] 1 (6 / 10) = [] ∧
      s1pre.person_ids = [7] := by
  refine ⟨c1_search_pre, rfl, ?_, rfl⟩
  simp [search, rebuildFromDatabase, createIndex]

/-! ### Claim C6: add stores unit-norm vectors -/

theorem addPerson_success (s : FAISSService) (pid : ℤ) (e : Emb)
    (hi : s.index ≠ none) (hd : e.length = s.dimension) :
    (addPerson s pid e).2 = true ∧
    (addPerson s pid e).1.person_ids = s.person_ids ++ [pid] ∧
    storedVecs (addPerson s pid e).1 = storedVecs s ++ [l2normalize e] ∧
    (addPerson s pid e).1.dimension = s.dimension ∧
    (addPerson s pid e).1.index ≠ none ∧
    (addPerson s pid e).1.saveLog =
      (if (s.person_ids.length + 1) % 10 = 0 then s.saveLog + 1 else s.saveLog) := by
  obtain ⟨vs, hvs⟩ : ∃ vs, s.index = some vs := by
    cases h : s.index with
    | none => exact absurd h hi
    | some vs => exact ⟨vs, rfl⟩
  by_cases hm : (s.person_ids.length + 1) % 10 = 0 <;>
    simp [addPerson, hvs, hd, storedVecs, saveIndex, hm]

theorem addPerson_none_success (s : FAISSService) (pid : ℤ) (e : Emb)
    (hvs : s.index = none) (hd : e.length = s.dimension) :
    (addPerson s pid e).2 = true ∧
    storedVecs (addPerson s pid e).1 = [l2normalize e] := by
  simp [addPerson, hvs, hd, createIndex, storedVecs, saveIndex]

/-- C6 (amended): every embedding accepted by `add` (correct dimension,
call returns ok) whose norm is nonzero is stored in L2-normalized form:
the appended row is `e/‖e‖`, whose Euclidean norm is exactly 1 and in
particular within the 1e-5 tolerance; the normalization is performed
inside `add_person` itself.  The zero vector is the exception the
counterexample exhibits: it is accepted but its stored row is not
unit-norm. -/
theorem add_stores_unit_norm (s : FAISSService) (pid : ℤ) (e : Emb)
    (hd : e.length = s.dimension) (hnz : sumSq e ≠ 0) :
    (addPerson s pid e).2 = true ∧
    (storedVecs (addPerson s pid e).1).getLast? = some (l2normalize e) ∧
    norm2 (l2normalize e) = 1 ∧
    |norm2 (l2normalize e) - 1| ≤ 1 / 100000 := by
  have hn := norm2_l2normalize e hnz
  cases hvs : s.index with
  | none =>
    refine ⟨?_, ?_, hn, by rw [hn]; norm_num⟩ <;>
      simp [addPerson, hvs, hd, createIndex, storedVecs, saveIndex]
  | some vs =>
    obtain ⟨hb, _, hstored, _, _, _⟩ :=
      addPerson_success s pid e (by rw [hvs]; exact Option.some_ne_none vs) hd
    refine ⟨hb, ?_, hn, by rw [hn]; norm_num⟩
    rw [hstored, List.getLast?_concat]

/-- Concrete state used to witness C6. -/
def s6w : FAISSService :=
  { index := some [], person_ids := [], dimension := 2,
    files := ⟨none, none⟩, is_initialized := true, saveLog := 0 }

theorem add_stores_unit_norm_witness :
    ([3, 4] : Emb).length = s6w.dimension ∧ sumSq [3, 4] ≠ 0 ∧
      ((addPerson s6w 1 [3, 4]).2 = true ∧
        (storedVecs (addPerson s6w 1 [3, 4]).1).getLast? =
          some (l2normalize [3, 4]) ∧
        norm2 (l2normalize [3, 4]) = 1 ∧
        |norm2 (l2normalize [3, 4]) - 1| ≤ 1 / 100000) :=
  ⟨rfl, by norm_num [sumSq],
    add_stores_unit_norm s6w 1 [3, 4] rfl (by norm_num [sumSq])⟩

/-- C6 counterexample: the all-zeros embedding of the configured dimension
is accepted by `add` (the call returns ok), yet the row actually stored is
the zero vector, whose Euclidean norm is 0, not 1 within 1e-5. -/
theorem add_zero_vector_not_normalized_cex :
    (addPerson initState 1 (List.replicate 512 0)).2 = true ∧
      (storedVecs (addPerson initState 1 (List.replicate 512 0)).1).getLast? =
        some (List.replicate 512 (0 : ℝ)) ∧
      norm2 (List.replicate 512 (0 : ℝ)) = 0 ∧
      ¬ |norm2 (List.replicate 512 (0 : ℝ)) - 1| ≤ 1 / 100000 := by
  have hz : l2normalize (List.replicate 512 (0 : ℝ)) = List.replicate 512 0 :=
    l2normalize_replicate_zero 512
  have hnorm : norm2 (List.replicate 512 (0 : ℝ)) = 0 := by
    rw [norm2, sumSq_replicate_zero, Real.sqrt_zero]
  have hd512 : (List.replicate 512 (0 : ℝ)).length = initState.dimension := by
    rw [List.length_replicate]
    rfl
  obtain ⟨hb, hst⟩ := addPerson_none_success initState 1 (List.replicate 512 0) rfl hd512
  refine ⟨hb, ?_, hnorm, by rw [hnorm]; norm_num⟩
  rw [hst, hz]
  rfl

/-! ### Claim C8: the autosave policy -/

theorem countSaves_succ (n0 m : ℕ) :
    countSaves n0 (m + 1) =
      (if (n0 + 1) % 10 = 0 then 1 else 0) + countSaves (n0 + 1) m := by
  unfold countSaves
  rw [List.range_succ_eq_map, List.countP_cons, List.countP_map]
  have hfun : ((fun j => (n0 + j + 1) % 10 == 0) ∘ Nat.succ) =
      fun j => ((n0 + 1) + j + 1) % 10 == 0 := by
    funext j
    simp only [Function.comp]
    congr 2
    omega
  rw [hfun]
  by_cases hm : (n0 + 1) % 10 = 0 <;> simp [hm] <;> omega

theorem addMany_spec (batch : List (ℤ × Emb)) :
    ∀ s : FAISSService, s.index ≠ none →
      (∀ p ∈ batch, (p.2).length = s.dimension) →
      (addMany s batch).person_ids.length = s.person_ids.length + batch.length ∧
      (addMany s batch).saveLog =
        s.saveLog + countSaves s.person_ids.length batch.length := by
  induction batch with
  | nil => intro s hi hd; simp [addMany, countSaves]
  | cons p rest ih =>
    intro s hi hd
    obtain ⟨hb, hids, hstored, hdim, hi', hlog⟩ :=
      addPerson_success s p.1 p.2 hi (hd p (List.mem_cons_self _ _))
    have hd' : ∀ x ∈ rest, (x.2).length = (addPerson s p.1 p.2).1.dimension := by
      intro x hx
      rw [hdim]
      exact hd x (List.mem_cons_of_mem _ hx)
    have hstep : addMany s (p :: rest) = addMany (addPerson s p.1 p.2).1 rest := by
      simp [addMany]
    obtain ⟨ih1, ih2⟩ := ih (addPerson s p.1 p.2).1 hi' hd'
    constructor
    · rw [hstep, ih1, hids]
      simp
      omega
    · rw [hstep, ih2, hlog, hids]
      simp only [List.length_append, List.length_cons, List.length_nil]
      rw [countSaves_succ]
      by_cases hm : (s.person_ids.length + 1) % 10 = 0 <;> simp [hm] <;> omega

/-- C8 (amended): over any run of successful adds, an autosave fires on
exactly those adds whose resulting total count is a multiple of ten
(`countSaves` counts them from the initial count).  Between two
consecutive autosaves there are therefore exactly ten successful adds and
at most nine additions are ever unpersisted — but the trigger is the total
count, not the count of adds since the start: from an initial count that
is not a multiple of ten, the first autosave arrives before the tenth
add. -/
theorem autosave_on_multiples_of_ten (s : FAISSService) (batch : List (ℤ × Emb))
    (hi : s.index ≠ none) (hd : ∀ p ∈ batch, (p.2).length = s.dimension) :
    (addMany s batch).person_ids.length = s.person_ids.length + batch.length ∧
    (addMany s batch).saveLog =
      s.saveLog + countSaves s.person_ids.length batch.length :=
  addMany_spec batch s hi hd

/-- Concrete state used to witness C8. -/
def s8w : FAISSService :=
  { index := some [], person_ids := [], dimension := 1,
    files := ⟨none, none⟩, is_initialized := true, saveLog := 0 }

theorem autosave_on_multiples_of_ten_witness :
    s8w.index ≠ none ∧
      (∀ p ∈ [((1 : ℤ), ([2] : Emb))], (p.2).length = s8w.dimension) ∧
      ((addMany s8w [((1 : ℤ), ([2] : Emb))]).person_ids.length =
          s8w.person_ids.length + [((1 : ℤ), ([2] : Emb))].length ∧
        (addMany s8w [((1 : ℤ), ([2] : Emb))]).saveLog =
          s8w.saveLog + countSaves s8w.person_ids.length
            [((1 : ℤ), ([2] : Emb))].length) :=
  ⟨by simp [s8w], by intro p hp; rw [List.mem_singleton.mp hp]; rfl,
    autosave_on_multiples_of_ten s8w [((1 : ℤ), ([2] : Emb))] (by simp [s8w])
      (by intro p hp; rw [List.mem_singleton.mp hp]; rfl)⟩

/-- Concrete initial state for the C8 counterexample: nine entries already
indexed. -/
def s8c : FAISSService :=
  { index := some [[1], [1], [1], [1], [1], [1], [1], [1], [1]],
    person_ids := [1, 2, 3, 4, 5, 6, 7, 8, 9], dimension := 1,
    files := ⟨none, none⟩, is_initialized := true, saveLog := 0 }

/-- Ten successful adds for the C8 counterexample. -/
def batch10 : List (ℤ × Emb) := List.replicate 10 (100, [1])

/-- The first nine of those adds. -/
def batch9 : List (ℤ × Emb) := List.replicate 9 (100, [1])

/-- C8 counterexample: starting from nine indexed entries, ten successful
adds invoke exactly one persist — fired by the first add (total count 10),
while the tenth add (total count 19) fires none — refuting that persist is
invoked after every 10th successful add from any initial state. -/
theorem autosave_not_every_tenth_add_cex :
    (addMany s8c batch10).person_ids.length = 19 ∧
      (addMany s8c batch9).person_ids.length = 18 ∧
      (addMany s8c batch10).saveLog = 1 ∧
      (addMany s8c batch9).saveLog = 1 := by
  have hi : s8c.index ≠ none := by simp [s8c]
  have hd10 : ∀ p ∈ batch10, (p.2).length = s8c.dimension := by
    intro p hp
    rw [List.eq_of_mem_replicate hp]
    rfl
  have hd9 : ∀ p ∈ batch9, (p.2).length = s8c.dimension := by
    intro p hp
    rw [List.eq_of_mem_replicate hp]
    rfl
  obtain ⟨h1, h2⟩ := addMany_spec batch10 s8c hi hd10
  obtain ⟨h3, h4⟩ := addMany_spec batch9 s8c hi hd9
  refine ⟨?_, ?_, ?_, ?_⟩
  · rw [h1]; decide
  · rw [h3]; decide
  · rw [h2]; decide
  · rw [h4]; decide

/-! ### Claim C5: enrollment aggregation -/

theorem enrollLoop_spec (imgs : List ImgOutcome) :
    ∀ idx, (enrollLoop idx imgs).1 = acceptedEmbs imgs ∧
      (enrollLoop idx imgs).2.length = imgs.length ∧
      (enrollLoop idx imgs).2.map Report.status = imgs.map expectedStatus := by
  induction imgs with
  | nil => intro idx; simp [enrollLoop, acceptedEmbs]
  | cons img rest ih =>
    intro idx
    obtain ⟨ih1, ih2, ih3⟩ := ih (idx + 1)
    cases img with
    | decodeError =>
      simp [enrollLoop, acceptedEmbs, expectedStatus, List.filterMap_cons,
        ih1, ih2, ih3]
    | decoded q e =>
      by_cases hq : q < 0.3
      · cases e <;>
          simp [enrollLoop, acceptedEmbs, expectedStatus, List.filterMap_cons,
            hq, ih1, ih2, ih3]
      · cases e <;>
          simp [enrollLoop, acceptedEmbs, expectedStatus, List.filterMap_cons,
            hq, ih1, ih2, ih3]

/-- C5: enrollment aggregation emits exactly one report per input image,
tagged accepted / rejected / error exactly as the loop body decides, never
aborting the batch on a per-image failure; it returns no embedding iff no
image yields a usable embedding, and otherwise the componentwise
arithmetic mean of exactly the accepted embeddings re-normalized — of
exactly unit norm whenever the mean is nonzero. -/
theorem enrollment_aggregation (imgs : List ImgOutcome) :
    (processEnrollmentImages imgs).2.length = imgs.length ∧
    (processEnrollmentImages imgs).2.map Report.status = imgs.map expectedStatus ∧
    ((processEnrollmentImages imgs).1 = none ↔ acceptedEmbs imgs = []) ∧
    (acceptedEmbs imgs ≠ [] →
      (processEnrollmentImages imgs).1 =
        some (l2normalize (meanVec (acceptedEmbs imgs))) ∧
      (sumSq (meanVec (acceptedEmbs imgs)) ≠ 0 →
        norm2 (l2normalize (meanVec (acceptedEmbs imgs))) = 1)) := by
  obtain ⟨h1, h2, h3⟩ := enrollLoop_spec imgs 0
  cases hl : (enrollLoop 0 imgs).1 with
  | nil =>
    have hae : acceptedEmbs imgs = [] := by rw [← h1, hl]
    refine ⟨?_, ?_, ?_, ?_⟩ <;>
      simp [processEnrollmentImages, hl, h2, h3, hae]
  | cons v vs =>
    have hae : acceptedEmbs imgs = v :: vs := by rw [← h1, hl]
    have hproc : processEnrollmentImages imgs =
        (some (l2normalize (meanVec (v :: vs))), (enrollLoop 0 imgs).2) := by
      simp [processEnrollmentImages, hl]
    refine ⟨by simp [hproc, h2], by simp [hproc, h3], by simp [hproc, hae], ?_⟩
    intro _
    rw [hae, hproc]
    exact ⟨rfl, fun hnz => norm2_l2normalize _ hnz⟩

/-- Concrete batch realizing the specified scenario: five images, two
rejected on quality, one with no detectable face, two accepted. -/
noncomputable def imgs5 : List ImgOutcome :=
  [.decoded 0.1 (some [1, 0]), .decoded 0.2 none, .decoded 0.5 none,
   .decoded 0.9 (some [1, 0]), .decoded 0.8 (some [0, 1])]

theorem acceptedEmbs_imgs5 : acceptedEmbs imgs5 = [[1, 0], [0, 1]] := by
  norm_num [acceptedEmbs, imgs5, List.filterMap_cons]

theorem enrollment_aggregation_witness :
    acceptedEmbs imgs5 ≠ [] ∧
      ((processEnrollmentImages imgs5).1 =
          some (l2normalize (meanVec (acceptedEmbs imgs5))) ∧
        (sumSq (meanVec (acceptedEmbs imgs5)) ≠ 0 →
          norm2 (l2normalize (meanVec (acceptedEmbs imgs5))) = 1)) :=
  ⟨by rw [acceptedEmbs_imgs5]; simp,
    (enrollment_aggregation imgs5).2.2.2 (by rw [acceptedEmbs_imgs5]; simp)⟩

/-! ### Claim C2: the quality-score formula -/

theorem listMean_replicate (n : ℕ) (c : ℝ) (hn : n ≠ 0) :
    listMean (List.replicate n c) = c := by
  unfold listMean
  rw [List.sum_replicate, List.length_replicate, nsmul_eq_mul]
  exact mul_div_cancel_left₀ c (Nat.cast_ne_zero.mpr hn)

theorem listVar_replicate (n : ℕ) (c : ℝ) (hn : n ≠ 0) :
    listVar (List.replicate n c) = 0 := by
  unfold listVar
  rw [listMean_replicate n c hn, List.map_replicate]
  simp [listMean, List.sum_replicate]

theorem round3_down (x : ℝ) (z : ℤ) (h1 : (z : ℝ) ≤ x * 1000)
    (h2 : x * 1000 < (z : ℝ) + 1 / 2) : round3 x = (z : ℝ) / 1000 := by
  have hfl : ⌊x * 1000⌋ = z := Int.floor_eq_iff.mpr ⟨h1, by linarith⟩
  unfold round3
  simp only [hfl]
  rw [if_pos (by linarith : x * 1000 - (z : ℝ) < 1 / 2)]

theorem round3_up (x : ℝ) (z : ℤ) (h1 : (z : ℝ) + 1 / 2 < x * 1000)
    (h2 : x * 1000 < (z : ℝ) + 1) : round3 x = ((z : ℝ) + 1) / 1000 := by
  have hfl : ⌊x * 1000⌋ = z := Int.floor_eq_iff.mpr ⟨by linarith, h2⟩
  unfold round3
  simp only [hfl]
  rw [if_neg (by push_neg; linarith), if_pos (by linarith)]
  push_cast
  ring

/-- C2: code-bug evidence.  For a uniform mid-gray image (Laplacian
response identically zero, every gray pixel 128) the code returns
`quality_score = 0.001`: it computes the brightness term as
`min(2*|b - 0.5|, 1)`, rewarding distance from mid-gray, whereas the
claimed formula `0.3*clamp(1 - 2*|b - 0.5|)` yields 0.299 under the same
rounding — the `1 -` was dropped in the source. -/
theorem quality_brightness_term_bug_cex :
    (assessImageQuality (List.replicate 4 0)
        (List.replicate 4 128)).quality_score = 1 / 1000 ∧
      round3 (specQualityScore 0 (128 / 255) 0) = 299 / 1000 ∧
      ((1 : ℝ) / 1000) ≠ 299 / 1000 := by
  have hlapvar : listVar (List.replicate 4 (0 : ℝ)) = 0 :=
    listVar_replicate 4 0 (by norm_num)
  have hmean : listMean (List.replicate 4 (128 : ℝ)) = 128 :=
    listMean_replicate 4 128 (by norm_num)
  have hvar : listVar (List.replicate 4 (128 : ℝ)) = 0 :=
    listVar_replicate 4 128 (by norm_num)
  have hstd : listStd (List.replicate 4 (128 : ℝ)) = 0 := by
    rw [listStd, hvar, Real.sqrt_zero]
  have habs : |(128 : ℝ) / 255 - 0.5| = 1 / 510 := by
    rw [abs_of_nonneg (by norm_num : (0 : ℝ) ≤ 128 / 255 - 0.5)]
    norm_num
  refine ⟨?_, ?_, by norm_num⟩
  · have hqs : (assessImageQuality (List.replicate 4 0)
        (List.replicate 4 128)).quality_score =
        round3 (min (listVar (List.replicate 4 (0 : ℝ)) / 100) 1 * 0.4 +
          min (|listMean (List.replicate 4 (128 : ℝ)) / 255 - 0.5| * 2) 1 * 0.3 +
          min (listStd (List.replicate 4 (128 : ℝ)) / 128) 1 * 0.3) := rfl
    rw [hqs, hlapvar, hmean, hstd, habs]
    have harg : min ((0 : ℝ) / 100) 1 * 0.4 + min ((1 : ℝ) / 510 * 2) 1 * 0.3 +
        min ((0 : ℝ) / 128) 1 * 0.3 = 1 / 850 := by
      norm_num [min_def]
    rw [harg, round3_down (1 / 850) 1 (by norm_num) (by norm_num)]
    norm_num
  · have hspec : specQualityScore 0 (128 / 255) 0 = 127 / 425 := by
      unfold specQualityScore
      rw [habs]
      norm_num [min_def, max_def]
    rw [hspec, round3_up (127 / 425) 298 (by norm_num) (by norm_num)]
    norm_num

end SmartFace
